import Mathlib

/-!
Verification of the ai-news-agent collection and deduplication pipeline.

Shallow embedding conventions:
* Python floats are modelled as real numbers, `datetime` values as real-valued
  seconds since the epoch (`timedelta(days=d)` is `d * 86400` seconds).
* numpy 1-D arrays are lists of reals; `np.dot` and `np.linalg.norm` are
  modelled in the `Np` namespace.
* External collaborators (the persisted item store, the sentence-transformer
  model, `urlparse`) enter as function-typed parameters, mirroring the
  interfaces the source calls.
* Async methods are pure state-passing functions: the waiting performed by
  `RateLimiter.acquire` is captured by passing the clock readings taken at
  entry and after the sleep as explicit arguments.
-/

namespace AINews

/-! ## numpy primitives used by `deduplication/embeddings.py` -/

namespace Np

/-- Model of `np.dot` on 1-D vectors: the sum of pairwise products. -/
def dot : List ℝ → List ℝ → ℝ
  | a :: v, b :: w => a * b + dot v w
  | _, _ => 0

/-- Model of `np.linalg.norm`: the Euclidean norm. -/
noncomputable def norm (v : List ℝ) : ℝ := Real.sqrt (dot v v)

end Np

/-! ## `deduplication/embeddings.py` — EmbeddingService -/

/-- Model of `EmbeddingService.combine_text_for_similarity`: title + truncated content +
source domain.  `domain_of` stands for `urlparse(url).netloc` (external). -/
def combine_text_for_similarity (domain_of : String → String)
    (title content url : String) : String :=
  let domain := domain_of url
  let content2 := if 500 < content.length then content.take 500 ++ "..." else content
  "Title: " ++ title ++ "\n\nContent: " ++ content2 ++ "\n\nSource: " ++ domain

/-- Model of `EmbeddingService.cosine_similarity`: zero-norm guard, then the cosine
remapped to `[0, 1]` via `(similarity + 1) / 2`. -/
noncomputable def cosine_similarity (embedding1 embedding2 : List ℝ) : ℝ :=
  let norm1 := Np.norm embedding1
  let norm2 := Np.norm embedding2
  if norm1 = 0 ∨ norm2 = 0 then 0
  else (Np.dot embedding1 embedding2 / (norm1 * norm2) + 1) / 2

/-- Model of `EmbeddingService.find_most_similar`: empty-candidate and zero-norm-query
guards, per-candidate zero-norm skip, normalized dot product remapped to
`[0, 1]`, threshold filter, stable descending sort, optional `top_k` cut. -/
noncomputable def find_most_similar (query_embedding : List ℝ)
    (candidate_embeddings : List (List ℝ)) (threshold : ℝ) (top_k : Option ℕ) :
    List (ℕ × ℝ) :=
  match candidate_embeddings with
  | [] => []
  | _ :: _ =>
    if Np.norm query_embedding = 0 then []
    else
      let query_normalized := query_embedding.map (fun x => x / Np.norm query_embedding)
      let similarities := candidate_embeddings.enum.filterMap (fun ic =>
        if Np.norm ic.2 = 0 then none
        else
          let similarity :=
            (Np.dot query_normalized (ic.2.map (fun x => x / Np.norm ic.2)) + 1) / 2
          if threshold ≤ similarity then some (ic.1, similarity) else none)
      let sorted := List.insertionSort (fun a b : ℕ × ℝ => b.2 ≤ a.2) similarities
      match top_k with
      | some k => sorted.take k
      | none => sorted

/-- The on-disk embedding cache: a map from cache key to stored vector
(`.npy` files store float arrays exactly, so a stored vector reads back
bit-identically). -/
structure EmbeddingCache where
  entries : String → Option (List ℝ)

/-- Model of `EmbeddingService._load_from_cache`. -/
def load_from_cache (c : EmbeddingCache) (cache_key : String) : Option (List ℝ) :=
  c.entries cache_key

/-- Model of `EmbeddingService._save_to_cache`. -/
def save_to_cache (c : EmbeddingCache) (cache_key : String) (v : List ℝ) :
    EmbeddingCache :=
  ⟨fun k => if k = cache_key then some v else c.entries k⟩

/-- Result of one `encode` call: the returned vector, the cache afterwards,
and whether the sentence-transformer model was invoked. -/
structure EncodeResult where
  vector : List ℝ
  cache : EmbeddingCache
  invoked_model : Bool

/-- Model of `EmbeddingService.encode`: consult the cache under
`_get_cache_key(text)` (modelled by `cache_key`, the sha256 of
`model_name + ":" + text`); on a miss invoke the model and save. -/
def encode (model : String → List ℝ) (cache_key : String → String)
    (c : EmbeddingCache) (text : String) (use_cache : Bool) : EncodeResult :=
  if use_cache then
    match load_from_cache c (cache_key text) with
    | some cached => ⟨cached, c, false⟩
    | none =>
      let embedding := model text
      ⟨embedding, save_to_cache c (cache_key text) embedding, true⟩
  else
    ⟨model text, c, true⟩

/-! ## `deduplication/service.py` — DeduplicationService -/

/-- Model of `models.NewsItem` (the fields `check_duplicate`/`collect` consume). -/
structure NewsItem where
  id : String
  url : String
  title : String
  content : String
  published_at : ℝ

/-- Model of `storage.models.NewsItemDB` (the fields the service consumes). -/
structure NewsItemDB where
  id : String
  title : String
  published_at : ℝ

/-- Model of `deduplication.service.DuplicateMatch`. -/
structure DuplicateMatch where
  is_duplicate : Bool
  original_id : Option String
  similarity_score : ℝ
  match_type : String

/-- The no-duplicate verdict returned when every stage misses. -/
def noDuplicate : DuplicateMatch := ⟨false, none, 0, "none"⟩

/-- Model of `DeduplicationService` together with its collaborators for one session:
`get_by_url` is `NewsItemRepository.get_by_url`, `find_similar` is
`DeduplicationRepository.find_similar` (returning the matched
`news_item_id`), `embed` is the deterministic text-to-vector map realised by
`EmbeddingService.encode`/`encode_batch` for a fixed model and disk cache,
`domain_of` is `urlparse(url).netloc`, and `items_cache` is `_items_cache`. -/
structure DeduplicationService where
  get_by_url : String → Option NewsItemDB
  find_similar : String → String → String → Option String
  embed : String → List ℝ
  domain_of : String → String
  similarity_threshold : ℝ
  items_cache : List (NewsItemDB × List ℝ)

/-- Model of `DeduplicationService.check_duplicate`: exact URL, exact title/content
hash, then semantic similarity over `_items_cache` with the 7-day temporal
corroboration check. -/
noncomputable def check_duplicate (svc : DeduplicationService)
    (news_item : NewsItem) : DuplicateMatch :=
  match svc.get_by_url news_item.url with
  | some existing => ⟨true, some existing.id, 1, "exact_url"⟩
  | none =>
    match svc.find_similar news_item.url news_item.title news_item.content with
    | some cached_id => ⟨true, some cached_id, 1, "exact_title"⟩
    | none =>
      match svc.items_cache with
      | [] => noDuplicate
      | _ :: _ =>
        let combined := combine_text_for_similarity svc.domain_of
          news_item.title news_item.content news_item.url
        let item_embedding := svc.embed combined
        match find_most_similar item_embedding (svc.items_cache.map Prod.snd)
            svc.similarity_threshold (some 5) with
        | [] => noDuplicate
        | (best_idx, best_score) :: _ =>
          match svc.items_cache.get? best_idx with
          | none => noDuplicate
          | some (best_item, _) =>
            if 7 * 24 * 3600 < |news_item.published_at - best_item.published_at| then
              noDuplicate
            else ⟨true, some best_item.id, best_score, "similar_content"⟩

/-- Model of `DeduplicationService._check_exact_matches`: the fast path used by
`check_batch`.  It checks only the exact URL (not the title/content hash). -/
def check_exact_matches (svc : DeduplicationService) (news_item : NewsItem) :
    DuplicateMatch :=
  match svc.get_by_url news_item.url with
  | some existing => ⟨true, some existing.id, 1, "exact_url"⟩
  | none => noDuplicate

/-- One iteration of the `check_batch` loop for an item and its batch-encoded
embedding. -/
noncomputable def check_batch_one (svc : DeduplicationService)
    (news_item : NewsItem) (embedding : List ℝ) : DuplicateMatch :=
  let result := check_exact_matches svc news_item
  if result.is_duplicate then result
  else
    match svc.items_cache with
    | [] => noDuplicate
    | _ :: _ =>
      match find_most_similar embedding (svc.items_cache.map Prod.snd)
          svc.similarity_threshold (some 1) with
      | [] => noDuplicate
      | (best_idx, best_score) :: _ =>
        match svc.items_cache.get? best_idx with
        | none => noDuplicate
        | some (best_item, _) =>
          if |news_item.published_at - best_item.published_at| ≤ 7 * 24 * 3600 then
            ⟨true, some best_item.id, best_score, "similar_content"⟩
          else noDuplicate

/-- Model of `DeduplicationService.check_batch`: batch-encode every item's combined
text (`encode_batch` is order-preserving, so the embedding paired with each
item is `embed` of its combined text), then run the per-item loop. -/
noncomputable def check_batch (svc : DeduplicationService)
    (news_items : List NewsItem) : List DuplicateMatch :=
  news_items.map (fun item =>
    check_batch_one svc item
      (svc.embed (combine_text_for_similarity svc.domain_of
        item.title item.content item.url)))

/-! ## `collectors/rss.py` — RSSCollector -/

/-- Per-feed outcome as observed by `collect` after
`asyncio.gather(..., return_exceptions=True)`: a list of parsed items, or a
captured exception. -/
inductive FeedResult where
  | ok (items : List NewsItem)
  | failed

/-- The item stream `collect`'s merge loop iterates over: exceptions are
logged and skipped, item lists are traversed in source iteration order. -/
def feed_items : List FeedResult → List NewsItem
  | [] => []
  | .failed :: rs => feed_items rs
  | .ok items :: rs => items ++ feed_items rs

/-- The `seen_ids` loop of `collect`: keep an item iff its `id` has not been
seen, recording the `id` once kept. -/
def dedup_first_seen (seen : List String) : List NewsItem → List NewsItem
  | [] => []
  | x :: xs =>
    if x.id ∈ seen then dedup_first_seen seen xs
    else x :: dedup_first_seen (x.id :: seen) xs

/-- Model of `collect`'s combine-and-deduplicate pass over the gathered feed results. -/
def merge_results (results : List FeedResult) : List NewsItem :=
  dedup_first_seen [] (feed_items results)

/-- Model of `RSSCollector.collect` downstream of the fetches: merge, deduplicate by
id, then drop items not strictly newer than
`now - timedelta(days=max_age_days)`. -/
noncomputable def collect (results : List FeedResult) (now : ℝ)
    (max_age_days : ℕ) : List NewsItem :=
  let all_items := merge_results results
  let cutoff_date := now - (max_age_days : ℝ) * 86400
  all_items.filter (fun item => cutoff_date < item.published_at)

/-- Outcome of one attempt inside `_fetch_feed`'s retry loop: a successful
fetch-and-parse with its items, or any of the caught exceptions
(timeout, network error, unexpected error). -/
inductive AttemptOutcome where
  | success (items : List NewsItem)
  | failure

/-- Model of `RSSCollector._fetch_feed`'s control flow over its (at most
`max_retries`) attempt outcomes: return the first success's items; if every
attempt fails, record the failure and return `[]` — never raise. -/
def fetch_feed : List AttemptOutcome → List NewsItem
  | [] => []
  | .success items :: _ => items
  | .failure :: rest => fetch_feed rest

/-! ## `utils/rate_limiter.py` — RateLimiter -/

/-- Model of `RateLimiter` state: the configured `rate` and `burst`, plus the
per-key `buckets` and `last_update` defaultdicts (modelled as total
functions; fresh keys hold `burst` tokens and a `last_update` no later than
the first acquire's clock reading). -/
structure RateLimiter where
  rate : ℝ
  burst : ℝ
  buckets : String → ℝ
  last_update : String → ℝ

/-- One `acquire(url, tokens)` call, with the clock readings the code takes:
`now` at entry and `now2` after the (possible) `asyncio.sleep`. -/
structure AcquireCall where
  key : String
  tokens : ℝ
  now : ℝ
  now2 : ℝ

/-- Pointwise update of a per-key table. -/
def setKey (f : String → ℝ) (k : String) (v : ℝ) : String → ℝ :=
  fun k2 => if k2 = k then v else f k2

/-- Model of `RateLimiter.acquire`: refill lazily (capped at `burst`), sleep when the
bucket is short, refill again after the sleep, then debit `tokens`. -/
noncomputable def acquire (s : RateLimiter) (c : AcquireCall) : RateLimiter :=
  let refilled := min s.burst (s.buckets c.key + (c.now - s.last_update c.key) * s.rate)
  if refilled < c.tokens then
    let refilled2 := min s.burst (refilled + (c.now2 - c.now) * s.rate)
    { s with buckets := setKey s.buckets c.key (refilled2 - c.tokens),
             last_update := setKey s.last_update c.key c.now2 }
  else
    { s with buckets := setKey s.buckets c.key (refilled - c.tokens),
             last_update := setKey s.last_update c.key c.now }

/-- Run a sequence of `acquire` calls. -/
noncomputable def run_acquires (s : RateLimiter) : List AcquireCall → RateLimiter
  | [] => s
  | c :: cs => run_acquires (acquire s c) cs

/-- The bucket-bound invariant: every key's token count is in `[0, burst]`. -/
def BucketBound (s : RateLimiter) : Prop :=
  ∀ k, 0 ≤ s.buckets k ∧ s.buckets k ≤ s.burst

/-- Timing discipline of one call: the clock is monotone and, when the
bucket is short, `asyncio.sleep(wait_time)` suspends for at least
`wait_time = (tokens - refilled) / rate`. -/
def SleepOK (s : RateLimiter) (c : AcquireCall) : Prop :=
  s.last_update c.key ≤ c.now ∧ c.now ≤ c.now2 ∧
  c.now + (c.tokens - min s.burst
    (s.buckets c.key + (c.now - s.last_update c.key) * s.rate)) / s.rate ≤ c.now2

/-- A sequence of calls, each requesting a non-negative amount no larger
than the burst capacity and obeying the timing discipline. -/
def CallsOK (s : RateLimiter) : List AcquireCall → Prop
  | [] => True
  | c :: cs => (0 ≤ c.tokens ∧ c.tokens ≤ s.burst ∧ SleepOK s c) ∧
      CallsOK (acquire s c) cs

/-! ## `models.py` — CollectorStats -/

/-- Model of `models.CollectorStats`. -/
structure CollectorStats where
  source : String
  success_count : ℕ
  failure_count : ℕ
  last_success : Option ℝ
  last_failure : Option ℝ
  average_items : ℝ
  average_response_time : ℝ

/-- Model of `CollectorStats.success_rate`: guarded division. -/
noncomputable def success_rate (s : CollectorStats) : ℝ :=
  let total := s.success_count + s.failure_count
  if 0 < total then (s.success_count : ℝ) / (total : ℝ) else 0

/-- Model of `CollectorStats.health_status`. -/
noncomputable def health_status (s : CollectorStats) : String :=
  if 0.9 ≤ success_rate s then "healthy"
  else if 0.7 ≤ success_rate s then "degraded"
  else "unhealthy"

/-! ## Helper lemmas about the numpy primitives -/

namespace Np

theorem dot_nil_left (w : List ℝ) : dot [] w = 0 := by
  cases w <;> rfl

theorem dot_nil_right (v : List ℝ) : dot v [] = 0 := by
  cases v <;> rfl

theorem dot_cons (a b : ℝ) (v w : List ℝ) :
    dot (a :: v) (b :: w) = a * b + dot v w := rfl

theorem dot_self_nonneg (v : List ℝ) : 0 ≤ dot v v := by
  induction v with
  | nil => simp [dot_nil_left]
  | cons a v ih => rw [dot_cons]; nlinarith [sq_nonneg a]

theorem dot_sq_le (v w : List ℝ) : (dot v w) ^ 2 ≤ dot v v * dot w w := by
  induction v generalizing w with
  | nil => simp [dot_nil_left]
  | cons a v ih =>
    cases w with
    | nil => simp [dot_nil_right]
    | cons b w =>
      have hA := dot_self_nonneg v
      have hB := dot_self_nonneg w
      have hD := ih w
      rw [dot_cons, dot_cons, dot_cons]
      rcases eq_or_lt_of_le hB with hB0 | hBpos
      · have hD0 : dot v w = 0 := by
          have h2 : dot v w ^ 2 ≤ 0 := by rw [← hB0] at hD; simpa using hD
          have hsq : dot v w ^ 2 = 0 := le_antisymm h2 (sq_nonneg _)
          exact pow_eq_zero_iff two_ne_zero |>.mp hsq
        rw [hD0, ← hB0]
        nlinarith [mul_nonneg hA (sq_nonneg b)]
      · nlinarith [sq_nonneg (a * dot w w - b * dot v w),
          mul_nonneg (sq_nonneg b) (sub_nonneg.mpr hD), hBpos]

theorem norm_nonneg' (v : List ℝ) : 0 ≤ norm v := Real.sqrt_nonneg _

theorem norm_sq (v : List ℝ) : norm v ^ 2 = dot v v :=
  Real.sq_sqrt (dot_self_nonneg v)

theorem abs_dot_le (v w : List ℝ) : |dot v w| ≤ norm v * norm w := by
  have h1 : |dot v w| = Real.sqrt ((dot v w) ^ 2) := (Real.sqrt_sq_eq_abs _).symm
  rw [h1, norm, norm, ← Real.sqrt_mul (dot_self_nonneg v)]
  exact Real.sqrt_le_sqrt (dot_sq_le v w)

theorem dot_map_div (a b : ℝ) (v w : List ℝ) :
    dot (v.map (fun x => x / a)) (w.map (fun x => x / b)) = dot v w / (a * b) := by
  induction v generalizing w with
  | nil => simp [dot_nil_left]
  | cons x v ih =>
    cases w with
    | nil => simp [dot_nil_right]
    | cons y w =>
      simp only [List.map_cons, dot_cons, ih, div_mul_div_comm, add_div]

/-- The normalized dot product of two vectors with nonzero norms lies in
`[-1, 1]`. -/
theorem normalized_dot_bound {v w : List ℝ} (hv : norm v ≠ 0) (hw : norm w ≠ 0) :
    |dot (v.map (fun x => x / norm v)) (w.map (fun x => x / norm w))| ≤ 1 := by
  rw [dot_map_div]
  have hvpos : 0 < norm v := lt_of_le_of_ne (norm_nonneg' v) (Ne.symm hv)
  have hwpos : 0 < norm w := lt_of_le_of_ne (norm_nonneg' w) (Ne.symm hw)
  have hprod : 0 < norm v * norm w := mul_pos hvpos hwpos
  rw [abs_div, abs_of_pos hprod, div_le_one hprod]
  exact abs_dot_le v w

end Np

/-! ## Lemmas about the embedding service -/

/-- Every pair emitted by `find_most_similar` carries a similarity score in
`[0, 1]`. -/
theorem find_most_similar_score_bounds (q : List ℝ) (cands : List (List ℝ))
    (θ : ℝ) (k : Option ℕ) :
    ∀ p ∈ find_most_similar q cands θ k, 0 ≤ p.2 ∧ p.2 ≤ 1 := by
  intro p hp
  cases cands with
  | nil => simp [find_most_similar] at hp
  | cons c0 cs =>
    simp only [find_most_similar] at hp
    by_cases hq : Np.norm q = 0
    · rw [if_pos hq] at hp
      simp at hp
    · rw [if_neg hq] at hp
      have hsims : p ∈ (c0 :: cs).enum.filterMap (fun ic =>
          if Np.norm ic.2 = 0 then none
          else
            let similarity :=
              (Np.dot (q.map (fun x => x / Np.norm q))
                (ic.2.map (fun x => x / Np.norm ic.2)) + 1) / 2
            if θ ≤ similarity then some (ic.1, similarity) else none) := by
        cases k with
        | some kk =>
          exact (List.mem_insertionSort _).mp ((List.take_sublist _ _).subset hp)
        | none => exact (List.mem_insertionSort _).mp hp
      rcases List.mem_filterMap.mp hsims with ⟨ic, _, hf⟩
      by_cases hc : Np.norm ic.2 = 0
      · rw [if_pos hc] at hf
        cases hf
      · rw [if_neg hc] at hf
        simp only [] at hf
        by_cases hθ : θ ≤ (Np.dot (q.map (fun x => x / Np.norm q))
            (ic.2.map (fun x => x / Np.norm ic.2)) + 1) / 2
        · rw [if_pos hθ] at hf
          have hp2 : p.2 = (Np.dot (q.map (fun x => x / Np.norm q))
              (ic.2.map (fun x => x / Np.norm ic.2)) + 1) / 2 := by
            cases hf; rfl
          have hb := Np.normalized_dot_bound hq hc
          rcases abs_le.mp hb with ⟨h1, h2⟩
          rw [hp2]
          constructor <;> linarith
        · rw [if_neg hθ] at hf
          cases hf

/-! ## Claim theorems: embedding service -/

/-- C7: the similarity functions are total: `cosine_similarity` returns `0`
whenever either vector has zero norm (never a division error), otherwise the
cosine remapped from `[-1, 1]` to `[0, 1]` via `(cos + 1) / 2` — so its value
always lies in `[0, 1]` — and `find_most_similar` reports no match for a
zero-norm query. -/
theorem cosine_similarity_total_and_guarded :
    (∀ e1 e2 : List ℝ, Np.norm e1 = 0 ∨ Np.norm e2 = 0 →
      cosine_similarity e1 e2 = 0) ∧
    (∀ e1 e2 : List ℝ, Np.norm e1 ≠ 0 → Np.norm e2 ≠ 0 →
      cosine_similarity e1 e2 =
        (Np.dot e1 e2 / (Np.norm e1 * Np.norm e2) + 1) / 2) ∧
    (∀ e1 e2 : List ℝ, 0 ≤ cosine_similarity e1 e2 ∧ cosine_similarity e1 e2 ≤ 1) ∧
    (∀ (q : List ℝ) (cands : List (List ℝ)) (θ : ℝ) (k : Option ℕ),
      Np.norm q = 0 → find_most_similar q cands θ k = []) := by
  refine ⟨?_, ?_, ?_, ?_⟩
  · intro e1 e2 h
    simp only [cosine_similarity]
    rw [if_pos h]
  · intro e1 e2 h1 h2
    simp only [cosine_similarity]
    rw [if_neg (by push_neg; exact ⟨h1, h2⟩)]
  · intro e1 e2
    simp only [cosine_similarity]
    by_cases h : Np.norm e1 = 0 ∨ Np.norm e2 = 0
    · rw [if_pos h]; norm_num
    · rw [if_neg h]
      push_neg at h
      obtain ⟨h1, h2⟩ := h
      have hp1 : 0 < Np.norm e1 := lt_of_le_of_ne (Np.norm_nonneg' e1) (Ne.symm h1)
      have hp2 : 0 < Np.norm e2 := lt_of_le_of_ne (Np.norm_nonneg' e2) (Ne.symm h2)
      have hprod : 0 < Np.norm e1 * Np.norm e2 := mul_pos hp1 hp2
      have habs : |Np.dot e1 e2 / (Np.norm e1 * Np.norm e2)| ≤ 1 := by
        rw [abs_div, abs_of_pos hprod, div_le_one hprod]
        exact Np.abs_dot_le e1 e2
      rcases abs_le.mp habs with ⟨hl, hr⟩
      constructor <;> [linarith; linarith]
  · intro q cands θ k hq
    cases cands with
    | nil => rfl
    | cons c0 cs => simp only [find_most_similar]; rw [if_pos hq]

/-- Witness for C7: the zero vector has zero norm, yielding similarity `0`
and no matches. -/
theorem cosine_similarity_total_and_guarded_witness :
    cosine_similarity [0] [1] = 0 ∧ find_most_similar [0] [[1]] 0.8 none = [] := by
  have hd : Np.dot [0] [0] = 0 := by norm_num [Np.dot]
  have hz : Np.norm [0] = 0 := by rw [Np.norm, hd, Real.sqrt_zero]
  exact ⟨cosine_similarity_total_and_guarded.1 [0] [1] (Or.inl hz),
    cosine_similarity_total_and_guarded.2.2.2 [0] [[1]] 0.8 none hz⟩

/-- C8: `encode(text)` followed by a second `encode(text)` with the same
model returns the identical vector, and the second call is served from the
cache without invoking the embedder again. -/
theorem encode_cache_round_trip (model : String → List ℝ)
    (cache_key : String → String) (c : EmbeddingCache) (text : String) :
    (encode model cache_key
        (encode model cache_key c text true).cache text true).vector =
      (encode model cache_key c text true).vector ∧
    (encode model cache_key
        (encode model cache_key c text true).cache text true).invoked_model
      = false := by
  unfold encode load_from_cache save_to_cache
  cases h : c.entries (cache_key text) with
  | some v => simp [h]
  | none => simp [h]

/-! ## Lemmas about the deduplication service -/

theorem head?_take_succ {α : Type} (l : List α) (k : ℕ) :
    (l.take (k + 1)).head? = l.head? := by
  cases l <;> rfl

theorem head?_take_five_one {α : Type} (l : List α) :
    (l.take 5).head? = (l.take 1).head? := by
  cases l <;> rfl

/-- The head of `find_most_similar` output does not depend on whether
`top_k` is 5 (as in `check_duplicate`) or 1 (as in `check_batch`). -/
theorem fms_head_eq (q : List ℝ) (cands : List (List ℝ)) (θ : ℝ) :
    (find_most_similar q cands θ (some 5)).head? =
      (find_most_similar q cands θ (some 1)).head? := by
  cases cands with
  | nil => rfl
  | cons c0 cs =>
    simp only [find_most_similar]
    by_cases hq : Np.norm q = 0
    · rw [if_pos hq, if_pos hq]
    · rw [if_neg hq, if_neg hq]
      exact head?_take_five_one _

/-- The semantic branch of `check_batch` and of `check_duplicate` agree on
a shared best match: the two temporal checks (`≤ 7 days` keeps, `> 7 days`
discards) are complementary. -/
theorem semantic_tail_eq (cache : List (NewsItemDB × List ℝ)) (t : ℝ)
    (bi : ℕ) (bs : ℝ) :
    (match cache.get? bi with
     | none => noDuplicate
     | some (best_item, _) =>
       if |t - best_item.published_at| ≤ 7 * 24 * 3600 then
         (⟨true, some best_item.id, bs, "similar_content"⟩ : DuplicateMatch)
       else noDuplicate) =
    (match cache.get? bi with
     | none => noDuplicate
     | some (best_item, _) =>
       if 7 * 24 * 3600 < |t - best_item.published_at| then noDuplicate
       else (⟨true, some best_item.id, bs, "similar_content"⟩ : DuplicateMatch)) := by
  cases hget : cache.get? bi with
  | none => rfl
  | some pe =>
    obtain ⟨bitem, bemb⟩ := pe
    by_cases ht : |t - bitem.published_at| ≤ 7 * 24 * 3600
    · simp [ht, not_lt.mpr ht]
    · simp [ht, lt_of_not_le ht]

/-! ## Claim theorems: deduplication service -/

/-- C1 (counterexample): for an item whose normalized title/content hash is
in the deduplication cache but whose URL is not in the store, the single
check returns an exact-title duplicate verdict while the batch check (whose
fast path `_check_exact_matches` only looks at the URL) does not, so the
batch verdicts differ from the per-item verdicts. -/
theorem check_batch_misses_exact_title :
    check_batch
        ⟨fun _ => none, fun _ _ _ => some "orig", fun _ => [], fun _ => "",
          0.85, []⟩
        [⟨"id0", "http://example.com/a", "T", "C", 0⟩] ≠
      [check_duplicate
        ⟨fun _ => none, fun _ _ _ => some "orig", fun _ => [], fun _ => "",
          0.85, []⟩
        ⟨"id0", "http://example.com/a", "T", "C", 0⟩] := by
  intro hEq
  have h1 : check_batch
      ⟨fun _ => none, fun _ _ _ => some "orig", fun _ => [], fun _ => "",
        0.85, []⟩
      [⟨"id0", "http://example.com/a", "T", "C", 0⟩] = [noDuplicate] := rfl
  have h2 : check_duplicate
      ⟨fun _ => none, fun _ _ _ => some "orig", fun _ => [], fun _ => "",
        0.85, []⟩
      ⟨"id0", "http://example.com/a", "T", "C", 0⟩ =
      ⟨true, some "orig", 1, "exact_title"⟩ := rfl
  rw [h1, h2] at hEq
  have hhd := congrArg (fun l => (l.headD noDuplicate).is_duplicate) hEq
  simp [noDuplicate] at hhd

/-- C1 (amended): for every batch in which no item has an exact
title/content-hash match in the deduplication cache (stage 2 misses for
every item), `check_batch` yields, position by position, the same verdict
as `check_duplicate`: the batch variant applies stage 1 (exact URL) and
stage 3 (semantic similarity with temporal corroboration) identically, but
it skips stage 2 entirely. -/
theorem check_batch_eq_singles (svc : DeduplicationService)
    (news_items : List NewsItem)
    (h : ∀ it ∈ news_items, svc.find_similar it.url it.title it.content = none) :
    check_batch svc news_items = news_items.map (check_duplicate svc) := by
  unfold check_batch
  apply List.map_congr_left
  intro it hit
  have hfs := h it hit
  unfold check_batch_one check_duplicate check_exact_matches
  cases hg : svc.get_by_url it.url with
  | some existing => simp
  | none =>
    simp only [hfs]
    cases hc : svc.items_cache with
    | nil => simp [noDuplicate]
    | cons p ps =>
      simp only []
      have hh := fms_head_eq
        (svc.embed (combine_text_for_similarity svc.domain_of it.title
          it.content it.url))
        ((p :: ps).map Prod.snd) svc.similarity_threshold
      cases hfm5 : find_most_similar
          (svc.embed (combine_text_for_similarity svc.domain_of it.title
            it.content it.url))
          ((p :: ps).map Prod.snd) svc.similarity_threshold (some 5) with
      | nil =>
        have hfm1 : find_most_similar
            (svc.embed (combine_text_for_similarity svc.domain_of it.title
              it.content it.url))
            ((p :: ps).map Prod.snd) svc.similarity_threshold (some 1) = [] := by
          rw [hfm5] at hh
          exact List.head?_eq_none_iff.mp hh.symm
        rw [hfm1]
        rfl
      | cons b rest =>
        obtain ⟨rest1, hfm1⟩ : ∃ rest1, find_most_similar
            (svc.embed (combine_text_for_similarity svc.domain_of it.title
              it.content it.url))
            ((p :: ps).map Prod.snd) svc.similarity_threshold (some 1)
            = b :: rest1 := by
          rw [hfm5] at hh
          cases hf1 : find_most_similar
              (svc.embed (combine_text_for_similarity svc.domain_of it.title
                it.content it.url))
              ((p :: ps).map Prod.snd) svc.similarity_threshold (some 1) with
          | nil => rw [hf1] at hh; simp at hh
          | cons b1 rest1 =>
            rw [hf1] at hh
            simp only [List.head?_cons, Option.some_inj] at hh
            exact ⟨rest1, by rw [hh]⟩
        rw [hfm1]
        obtain ⟨bi, bs⟩ := b
        exact semantic_tail_eq (p :: ps) it.published_at bi bs

/-- Witness for the amended C1: with an empty store and no cached items,
both the batch and the single classification return the no-duplicate
verdict for a one-item batch. -/
theorem check_batch_eq_singles_witness :
    check_batch
        ⟨fun _ => none, fun _ _ _ => none, fun _ => [], fun _ => "", 0.85, []⟩
        [⟨"id0", "http://example.com/a", "T", "C", 0⟩] =
      [check_duplicate
        ⟨fun _ => none, fun _ _ _ => none, fun _ => [], fun _ => "", 0.85, []⟩
        ⟨"id0", "http://example.com/a", "T", "C", 0⟩] :=
  check_batch_eq_singles _ _ (by intro it _; rfl)

/-- C3: when the exact stages miss and the best semantic match in the
recency-window cache clears the threshold but was published more than 7
days apart from the candidate, `check_duplicate` discards the match and
returns `is_duplicate = false`, reason `none`, score `0.0`. -/
theorem check_duplicate_temporal_discard (svc : DeduplicationService)
    (news_item : NewsItem) (best_idx : ℕ) (best_score : ℝ)
    (rest : List (ℕ × ℝ)) (best_item : NewsItemDB) (best_emb : List ℝ)
    (hurl : svc.get_by_url news_item.url = none)
    (htitle : svc.find_similar news_item.url news_item.title
      news_item.content = none)
    (hfms : find_most_similar
        (svc.embed (combine_text_for_similarity svc.domain_of news_item.title
          news_item.content news_item.url))
        (svc.items_cache.map Prod.snd) svc.similarity_threshold (some 5)
      = (best_idx, best_score) :: rest)
    (hget : svc.items_cache.get? best_idx = some (best_item, best_emb))
    (hscore : svc.similarity_threshold ≤ best_score)
    (htime : 7 * 24 * 3600 < |news_item.published_at - best_item.published_at|) :
    check_duplicate svc news_item = ⟨false, none, 0, "none"⟩ := by
  have hne : svc.items_cache ≠ [] := by
    intro h
    rw [h] at hget
    simp [List.get?] at hget
  unfold check_duplicate
  rw [hurl, htitle]
  cases hc : svc.items_cache with
  | nil => exact absurd hc hne
  | cons p ps =>
    rw [hc] at hfms hget
    simp only [hfms, hget, noDuplicate]
    rw [if_pos htime]

/-- Witness for C3: a candidate identical in embedding to a cached item
(similarity `1`, well above threshold `0.85`) but published 10 days later
(`864000` vs `0` seconds) is not flagged as a duplicate. -/
theorem check_duplicate_temporal_discard_witness :
    check_duplicate
        ⟨fun _ => none, fun _ _ _ => none, fun _ => [1], fun _ => "", 0.85,
          [(⟨"b1", "T", 0⟩, [1])]⟩
        ⟨"idw", "http://example.com/w", "T", "C", 864000⟩ =
      ⟨false, none, 0, "none"⟩ := by
  have hd : Np.dot [1] [1] = 1 := by norm_num [Np.dot]
  have hn : Np.norm [1] = 1 := by rw [Np.norm, hd, Real.sqrt_one]
  have hfms : find_most_similar [(1 : ℝ)] [[(1 : ℝ)]] 0.85 (some 5)
      = [(0, 1)] := by
    simp only [find_most_similar]
    rw [if_neg (by rw [hn]; norm_num)]
    simp only [List.enum, List.enumFrom, List.filterMap_cons, hn]
    rw [if_neg (by norm_num)]
    norm_num [Np.dot, List.insertionSort, List.orderedInsert]
  exact check_duplicate_temporal_discard _ _ 0 1 [] ⟨"b1", "T", 0⟩ [1]
    rfl rfl (by exact hfms) rfl (by norm_num)
    (by rw [show |(864000 : ℝ) - 0| = 864000 by rw [sub_zero, abs_of_nonneg]; norm_num]
        norm_num)

/-- Every verdict `check_duplicate` returns has a score in `[0, 1]` and
one of the four match types. -/
theorem check_duplicate_wf (svc : DeduplicationService) (news_item : NewsItem) :
    0 ≤ (check_duplicate svc news_item).similarity_score ∧
    (check_duplicate svc news_item).similarity_score ≤ 1 ∧
    (check_duplicate svc news_item).match_type ∈
      (["exact_url", "exact_title", "similar_content", "none"] : List String) := by
  unfold check_duplicate
  split
  · norm_num
  · split
    · norm_num
    · split
      · norm_num [noDuplicate]
      · dsimp only
        split
        · norm_num [noDuplicate]
        · next best_idx best_score tail heq =>
          split
          · norm_num [noDuplicate]
          · split
            · norm_num [noDuplicate]
            · have hb := find_most_similar_score_bounds _ _ _ _
                (best_idx, best_score) (by rw [heq]; exact List.mem_cons_self _ _)
              exact ⟨hb.1, hb.2, by simp⟩

/-- Every verdict the `check_batch` loop body returns has a score in
`[0, 1]` and one of the four match types. -/
theorem check_batch_one_wf (svc : DeduplicationService) (news_item : NewsItem)
    (embedding : List ℝ) :
    0 ≤ (check_batch_one svc news_item embedding).similarity_score ∧
    (check_batch_one svc news_item embedding).similarity_score ≤ 1 ∧
    (check_batch_one svc news_item embedding).match_type ∈
      (["exact_url", "exact_title", "similar_content", "none"] : List String) := by
  unfold check_batch_one check_exact_matches
  cases hg : svc.get_by_url news_item.url with
  | some existing => simp
  | none =>
    simp only []
    split
    · norm_num [noDuplicate]
    · split
      · norm_num [noDuplicate]
      · split
        · norm_num [noDuplicate]
        · next best_idx best_score tail heq =>
          split
          · norm_num [noDuplicate]
          · split
            · have hb := find_most_similar_score_bounds _ _ _ _
                (best_idx, best_score) (by rw [heq]; exact List.mem_cons_self _ _)
              exact ⟨hb.1, hb.2, by simp⟩
            · norm_num [noDuplicate]

/-- C9: every verdict returned by `check_duplicate` or `check_batch` is
well-formed: its score lies in `[0, 1]` and its reason is one of
`exact_url`, `exact_title`, the semantic match reason (encoded in the
source as the string `similar_content`), or `none`. -/
theorem verdicts_well_formed :
    (∀ (svc : DeduplicationService) (news_item : NewsItem),
      0 ≤ (check_duplicate svc news_item).similarity_score ∧
      (check_duplicate svc news_item).similarity_score ≤ 1 ∧
      (check_duplicate svc news_item).match_type ∈
        (["exact_url", "exact_title", "similar_content", "none"] : List String)) ∧
    (∀ (svc : DeduplicationService) (news_items : List NewsItem),
      ∀ v ∈ check_batch svc news_items,
        0 ≤ v.similarity_score ∧ v.similarity_score ≤ 1 ∧
        v.match_type ∈
          (["exact_url", "exact_title", "similar_content", "none"] : List String)) := by
  constructor
  · exact check_duplicate_wf
  · intro svc news_items v hv
    rcases List.mem_map.mp hv with ⟨it, _, rfl⟩
    exact check_batch_one_wf svc it _

/-- Witness for C9: the batch verdict for a one-item batch against an empty
store is the well-formed no-duplicate verdict. -/
theorem verdicts_well_formed_witness :
    0 ≤ noDuplicate.similarity_score ∧ noDuplicate.similarity_score ≤ 1 ∧
    noDuplicate.match_type ∈
      (["exact_url", "exact_title", "similar_content", "none"] : List String) :=
  verdicts_well_formed.2
    ⟨fun _ => none, fun _ _ _ => none, fun _ => [], fun _ => "", 0.85, []⟩
    [⟨"id0", "http://example.com/a", "T", "C", 0⟩] noDuplicate
    (by exact List.mem_singleton_self _)

/-! ## Lemmas about the collector merge pass -/

theorem dedup_first_seen_sublist (seen : List String) (l : List NewsItem) :
    List.Sublist (dedup_first_seen seen l) l := by
  induction l generalizing seen with
  | nil => simp [dedup_first_seen]
  | cons x xs ih =>
    simp only [dedup_first_seen]
    split
    · exact (ih seen).cons x
    · exact (ih (x.id :: seen)).cons₂ x

theorem dedup_first_seen_not_seen (seen : List String) (l : List NewsItem) :
    ∀ y ∈ dedup_first_seen seen l, y.id ∉ seen := by
  induction l generalizing seen with
  | nil => simp [dedup_first_seen]
  | cons x xs ih =>
    simp only [dedup_first_seen]
    split
    · exact ih seen
    · next hx =>
      intro y hy
      rcases List.mem_cons.mp hy with rfl | hy2
      · exact hx
      · have := ih (x.id :: seen) y hy2
        intro hcon
        exact this (List.mem_cons_of_mem _ hcon)

theorem dedup_first_seen_nodup (seen : List String) (l : List NewsItem) :
    ((dedup_first_seen seen l).map (fun i => i.id)).Nodup := by
  induction l generalizing seen with
  | nil => simp [dedup_first_seen]
  | cons x xs ih =>
    simp only [dedup_first_seen]
    split
    · exact ih seen
    · simp only [List.map_cons, List.nodup_cons]
      refine ⟨?_, ih (x.id :: seen)⟩
      intro hmem
      rcases List.mem_map.mp hmem with ⟨y, hy, hyid⟩
      exact dedup_first_seen_not_seen (x.id :: seen) xs y hy
        (hyid ▸ List.mem_cons_self _ _)

theorem dedup_first_seen_covers (l : List NewsItem) :
    ∀ (seen : List String), ∀ x ∈ l, x.id ∉ seen →
      ∃ y ∈ dedup_first_seen seen l, y.id = x.id := by
  induction l with
  | nil => intro seen x hx; cases hx
  | cons a xs ih =>
    intro seen x hx hseen
    rcases List.mem_cons.mp hx with rfl | hx2
    · simp only [dedup_first_seen]
      rw [if_neg hseen]
      exact ⟨x, List.mem_cons_self _ _, rfl⟩
    · simp only [dedup_first_seen]
      split
      · exact ih seen x hx2 hseen
      · by_cases hxa : x.id = a.id
        · exact ⟨a, List.mem_cons_self _ _, hxa.symm⟩
        · have hnot : x.id ∉ a.id :: seen := by
            intro h
            rcases List.mem_cons.mp h with h1 | h2
            · exact hxa h1
            · exact hseen h2
          rcases ih (a.id :: seen) x hx2 hnot with ⟨y, hy, hyid⟩
          exact ⟨y, List.mem_cons_of_mem _ hy, hyid⟩

theorem dedup_first_seen_first_kept (x : NewsItem) :
    ∀ (hd tl : List NewsItem) (seen : List String),
      (∀ z ∈ hd, z.id ≠ x.id) → x.id ∉ seen →
      x ∈ dedup_first_seen seen (hd ++ x :: tl) := by
  intro hd
  induction hd with
  | nil =>
    intro tl seen _ hx
    rw [List.nil_append]
    simp only [dedup_first_seen]
    rw [if_neg hx]
    exact List.mem_cons_self _ _
  | cons a hd2 ih =>
    intro tl seen hhd hx
    rw [List.cons_append]
    simp only [dedup_first_seen]
    split
    · exact ih tl seen (fun z hz => hhd z (List.mem_cons_of_mem _ hz)) hx
    · apply List.mem_cons_of_mem
      apply ih tl (a.id :: seen) (fun z hz => hhd z (List.mem_cons_of_mem _ hz))
      intro hmem
      rcases List.mem_cons.mp hmem with h1 | h2
      · exact hhd a (List.mem_cons_self _ _) h1.symm
      · exact hx h2

theorem feed_items_append (l1 l2 : List FeedResult) :
    feed_items (l1 ++ l2) = feed_items l1 ++ feed_items l2 := by
  induction l1 with
  | nil => rfl
  | cons r rs ih =>
    cases r with
    | ok items => simp [feed_items, ih, List.append_assoc]
    | failed => simp [feed_items, ih]

/-! ## Claim theorems: collector -/

/-- C4: within one aggregation pass, of all candidates sharing a
`canonical_id` exactly one survives the merge — the first in source
iteration order — and candidates with distinct ids are all kept: the merged
ids are duplicate-free, every incoming id is represented, any candidate not
preceded by an equal id survives, and the merge is a sublist (order- and
content-preserving) of the incoming stream. -/
theorem merge_results_first_seen (results : List FeedResult) :
    ((merge_results results).map (fun i => i.id)).Nodup ∧
    (∀ x ∈ feed_items results, ∃ y ∈ merge_results results, y.id = x.id) ∧
    (∀ (hd : List NewsItem) (x : NewsItem) (tl : List NewsItem),
      feed_items results = hd ++ x :: tl → (∀ z ∈ hd, z.id ≠ x.id) →
      x ∈ merge_results results) ∧
    List.Sublist (merge_results results) (feed_items results) := by
  refine ⟨dedup_first_seen_nodup [] _, ?_, ?_, dedup_first_seen_sublist [] _⟩
  · intro x hx
    exact dedup_first_seen_covers _ [] x hx (by simp)
  · intro hd x tl heq hhd
    unfold merge_results
    rw [heq]
    exact dedup_first_seen_first_kept x hd tl [] hhd (by simp)

/-- Witness for C4: two candidates with the same id `"x"` in one pass — the
first survives and the merged ids are duplicate-free. -/
theorem merge_results_first_seen_witness :
    (⟨"x", "u1", "t1", "c1", 0⟩ : NewsItem) ∈
      merge_results [FeedResult.ok
        [⟨"x", "u1", "t1", "c1", 0⟩, ⟨"x", "u2", "t2", "c2", 1⟩]] ∧
    ((merge_results [FeedResult.ok
        [⟨"x", "u1", "t1", "c1", 0⟩, ⟨"x", "u2", "t2", "c2", 1⟩]]).map
      (fun i => i.id)).Nodup :=
  ⟨(merge_results_first_seen _).2.2.1 [] ⟨"x", "u1", "t1", "c1", 0⟩
      [⟨"x", "u2", "t2", "c2", 1⟩] rfl (by intro z hz; cases hz),
    (merge_results_first_seen _).1⟩

/-- C5: the top-level collection never raises: it is a total function of
the per-source outcomes. Zero configured sources yield the empty result; a
source whose attempts all fail contributes `[]` from its retry loop without
raising; and a captured per-source exception (or an empty contribution) is
skipped without affecting the other sources' items. -/
theorem collect_error_isolation :
    (∀ (now : ℝ) (d : ℕ), collect [] now d = []) ∧
    (∀ outcomes : List AttemptOutcome,
      (∀ o ∈ outcomes, o = AttemptOutcome.failure) → fetch_feed outcomes = []) ∧
    (∀ (rs1 rs2 : List FeedResult) (now : ℝ) (d : ℕ),
      collect (rs1 ++ FeedResult.failed :: rs2) now d =
        collect (rs1 ++ rs2) now d) ∧
    (∀ (rs1 rs2 : List FeedResult) (now : ℝ) (d : ℕ),
      collect (rs1 ++ FeedResult.ok [] :: rs2) now d =
        collect (rs1 ++ rs2) now d) := by
  refine ⟨fun _ _ => rfl, ?_, ?_, ?_⟩
  · intro outcomes h
    induction outcomes with
    | nil => rfl
    | cons o os ih =>
      have ho := h o (List.mem_cons_self _ _)
      subst ho
      exact ih (fun o2 ho2 => h o2 (List.mem_cons_of_mem _ ho2))
  · intro rs1 rs2 now d
    unfold collect merge_results
    rw [feed_items_append, feed_items_append]
    rfl
  · intro rs1 rs2 now d
    unfold collect merge_results
    rw [feed_items_append, feed_items_append]
    rfl

/-- Witness for C5: three failed attempts produce an empty contribution. -/
theorem collect_error_isolation_witness :
    fetch_feed [AttemptOutcome.failure, AttemptOutcome.failure,
      AttemptOutcome.failure] = [] :=
  collect_error_isolation.2.1 _ (by
    intro o ho
    rcases List.mem_cons.mp ho with h | ho2
    · exact h
    rcases List.mem_cons.mp ho2 with h | ho3
    · exact h
    rcases List.mem_cons.mp ho3 with h | ho4
    · exact h
    · cases ho4)

/-- C6 (counterexample): an item published exactly at `now - max_age` is
not older than the cutoff, yet `collect` drops it (the filter keeps only
items strictly newer than the cutoff), so the filter does not drop exactly
the items older than `now - max_age`. -/
theorem collect_age_filter_boundary :
    (⟨"a", "u", "t", "c", -(7 * 86400)⟩ : NewsItem) ∈
        merge_results [FeedResult.ok [⟨"a", "u", "t", "c", -(7 * 86400)⟩]] ∧
    ¬ ((⟨"a", "u", "t", "c", -(7 * 86400)⟩ : NewsItem).published_at <
        (0 : ℝ) - (7 : ℕ) * 86400) ∧
    (⟨"a", "u", "t", "c", -(7 * 86400)⟩ : NewsItem) ∉
        collect [FeedResult.ok [⟨"a", "u", "t", "c", -(7 * 86400)⟩]] 0 7 := by
  refine ⟨?_, ?_, ?_⟩
  · simp [merge_results, feed_items, dedup_first_seen]
  · norm_num
  · intro hmem
    unfold collect at hmem
    rcases List.mem_filter.mp hmem with ⟨_, hp⟩
    rw [decide_eq_true_eq] at hp
    norm_num at hp

/-- C6 (amended): the aggregator keeps exactly the merged items whose
`published_at` is strictly newer than `now - max_age` — an item exactly at
the cutoff is dropped too; in particular one published 30 days ago is
excluded at `max_age_days = 7` and one published 1 hour ago is retained. -/
theorem collect_age_filter (results : List FeedResult) (now : ℝ) (d : ℕ)
    (item : NewsItem) :
    item ∈ collect results now d ↔
      item ∈ merge_results results ∧
        now - (d : ℝ) * 86400 < item.published_at := by
  unfold collect
  rw [List.mem_filter]
  rw [decide_eq_true_eq]

/-! ## Lemmas about the rate limiter -/

theorem acquire_rate (s : RateLimiter) (c : AcquireCall) :
    (acquire s c).rate = s.rate := by
  unfold acquire
  dsimp only
  split <;> rfl

theorem acquire_burst (s : RateLimiter) (c : AcquireCall) :
    (acquire s c).burst = s.burst := by
  unfold acquire
  dsimp only
  split <;> rfl

/-- One `acquire` call preserves the bucket bound, provided the requested
amount is at most the burst capacity and the call obeys the sleep/clock
discipline. -/
theorem acquire_preserves_bound (s : RateLimiter) (c : AcquireCall)
    (hrate : 0 < s.rate) (hinv : BucketBound s)
    (htok : 0 ≤ c.tokens) (htokb : c.tokens ≤ s.burst) (hsleep : SleepOK s c) :
    BucketBound (acquire s c) := by
  obtain ⟨h1, h2, h3⟩ := hsleep
  unfold BucketBound at hinv ⊢
  unfold acquire
  dsimp only
  split
  · next hw =>
    intro k
    dsimp only [setKey]
    by_cases hk : k = c.key
    · rw [if_pos hk]
      constructor
      · have hge : c.tokens ≤
            min s.burst (s.buckets c.key + (c.now - s.last_update c.key) * s.rate)
              + (c.now2 - c.now) * s.rate := by
          have hw2 : (c.tokens - min s.burst
              (s.buckets c.key + (c.now - s.last_update c.key) * s.rate)) / s.rate
              ≤ c.now2 - c.now := by linarith
          have hmul := mul_le_mul_of_nonneg_right hw2 (le_of_lt hrate)
          rw [div_mul_cancel₀ _ (ne_of_gt hrate)] at hmul
          linarith
        have hmin : c.tokens ≤ min s.burst
            (min s.burst (s.buckets c.key + (c.now - s.last_update c.key) * s.rate)
              + (c.now2 - c.now) * s.rate) := le_min htokb hge
        linarith
      · have hub : min s.burst
            (min s.burst (s.buckets c.key + (c.now - s.last_update c.key) * s.rate)
              + (c.now2 - c.now) * s.rate) ≤ s.burst := min_le_left _ _
        linarith
    · rw [if_neg hk]
      exact hinv k
  · next hw =>
    push_neg at hw
    intro k
    dsimp only [setKey]
    by_cases hk : k = c.key
    · rw [if_pos hk]
      constructor
      · linarith
      · have hub : min s.burst
            (s.buckets c.key + (c.now - s.last_update c.key) * s.rate) ≤ s.burst :=
          min_le_left _ _
        linarith
    · rw [if_neg hk]
      exact hinv k

theorem calls_ok_prefix (s : RateLimiter) :
    ∀ (pre suf : List AcquireCall), CallsOK s (pre ++ suf) → CallsOK s pre := by
  intro pre
  induction pre generalizing s with
  | nil => intro suf _; trivial
  | cons c cs ih =>
    intro suf h
    exact ⟨h.1, ih (acquire s c) suf h.2⟩

/-! ## Claim theorems: rate limiter -/

/-- C2 (counterexample): a single non-negative request of `7` tokens against
a bucket of capacity `5` (full, rate `1`) obeys the code's own sleep
discipline (`wait = (7 - 5) / 1 = 2` seconds) yet leaves the bucket at `-2`:
the post-sleep refill is capped at the burst capacity before the debit, so
the claimed bound fails for requests above the capacity. -/
theorem rate_limiter_overdraft :
    (0 : ℝ) ≤ (7 : ℝ) ∧
    SleepOK ⟨1, 5, fun _ => 5, fun _ => 0⟩ ⟨"feedhost", 7, 0, 2⟩ ∧
    (acquire ⟨1, 5, fun _ => 5, fun _ => 0⟩ ⟨"feedhost", 7, 0, 2⟩).buckets
        "feedhost" < 0 := by
  have e1 : (5 : ℝ) + (0 - 0) * 1 = 5 := by norm_num
  refine ⟨by norm_num, ⟨le_refl 0, by norm_num, ?_⟩, ?_⟩
  · show (0 : ℝ) + (7 - min 5 ((5 : ℝ) + (0 - 0) * 1)) / 1 ≤ 2
    rw [e1, min_self]
    norm_num
  · unfold acquire
    dsimp only
    rw [if_pos (by rw [e1, min_self]; norm_num : min (5 : ℝ) ((5 : ℝ) + (0 - 0) * 1) < 7)]
    dsimp only [setKey]
    rw [if_pos rfl, e1, min_self]
    have e2 : (5 : ℝ) + (2 - 0) * 1 = 7 := by norm_num
    rw [e2]
    rw [min_eq_left (by norm_num : (5 : ℝ) ≤ 7)]
    norm_num

/-- C2 (amended): for every sequence of `acquire` calls in which each
requested amount is non-negative and at most the burst capacity, and each
call obeys the monotone-clock/sleep discipline, every per-key bucket
satisfies `0 ≤ tokens ≤ capacity` after every operation (prefix of the
sequence).  Requests above the burst capacity violate the lower bound. -/
theorem rate_limiter_bucket_bound (s : RateLimiter) (calls : List AcquireCall)
    (hrate : 0 < s.rate) (hinv : BucketBound s) (hok : CallsOK s calls) :
    ∀ (pre suf : List AcquireCall), calls = pre ++ suf →
      BucketBound (run_acquires s pre) := by
  intro pre suf heq
  subst heq
  have hpre := calls_ok_prefix s pre suf hok
  clear hok
  induction pre generalizing s with
  | nil => exact hinv
  | cons c cs ih =>
    obtain ⟨⟨ht0, ht1, ht2⟩, hrest⟩ := hpre
    have hstep := acquire_preserves_bound s c hrate hinv ht0 ht1 ht2
    have hrate2 : 0 < (acquire s c).rate := by rw [acquire_rate]; exact hrate
    exact ih (acquire s c) hrate2 hstep hrest

/-- Witness for the amended C2: one in-budget acquire of `1` token from a
full bucket of capacity `5` keeps the bucket within `[0, 5]`. -/
theorem rate_limiter_bucket_bound_witness :
    BucketBound (run_acquires ⟨1, 5, fun _ => 5, fun _ => 0⟩
      [⟨"feedhost", 1, 0, 0⟩]) := by
  have e1 : (5 : ℝ) + (0 - 0) * 1 = 5 := by norm_num
  apply rate_limiter_bucket_bound ⟨1, 5, fun _ => 5, fun _ => 0⟩
    [⟨"feedhost", 1, 0, 0⟩] (by norm_num) ?_ ?_ [⟨"feedhost", 1, 0, 0⟩] [] rfl
  · intro k
    dsimp only
    norm_num
  · refine ⟨⟨by norm_num, by norm_num, le_refl 0, le_refl 0, ?_⟩, trivial⟩
    show (0 : ℝ) + (1 - min 5 ((5 : ℝ) + (0 - 0) * 1)) / 1 ≤ 0
    rw [e1, min_self]
    norm_num

/-! ## Claim theorems: collector statistics -/

/-- C10: a source with zero recorded attempts has `success_rate = 0.0`
(the division is guarded, never a division-by-zero error) and is reported
`unhealthy`. -/
theorem success_rate_zero_attempts (s : CollectorStats)
    (hs : s.success_count = 0) (hf : s.failure_count = 0) :
    success_rate s = 0 ∧ health_status s = "unhealthy" := by
  have h0 : success_rate s = 0 := by
    unfold success_rate
    rw [hs, hf]
    norm_num
  refine ⟨h0, ?_⟩
  unfold health_status
  rw [h0]
  rw [if_neg (by norm_num), if_neg (by norm_num)]

/-- Witness for C10: a never-tried source. -/
theorem success_rate_zero_attempts_witness :
    success_rate ⟨"hnews", 0, 0, none, none, 0, 0⟩ = 0 ∧
    health_status ⟨"hnews", 0, 0, none, none, 0, 0⟩ = "unhealthy" :=
  success_rate_zero_attempts _ rfl rfl

end AINews
